import Mathlib

/-!
Verification of `organize_by_year.py`: a utility that sorts Landsat files into
year-named folders by extracting the YYYYMMDD token from each filename.

Shallow embedding: paths are lists of path segments; the filesystem is a finite
association list of file paths to contents (contents abstracted as `Nat`) plus a
list of existing directories.  Per-file I/O failures of `shutil.copy2` /
`shutil.move` are modelled by an oracle telling, for a (source, destination)
pair, whether the operation raises.  `print` output is not modelled; the counts
that the summary prints are returned in a `Summary` record.
-/

namespace OrganizeByYear

/-- A filesystem path, as its list of segments. -/
abbrev Path := List String

/-- Final segment of a path: `path.name` in `pathlib`. -/
def pathName (p : Path) : String := p.getLastD ""

/-- Models Python `str.split("_")` on the character list of the string:
splitting on every underscore, keeping empty segments, so that
`"a__b".split("_") == ["a", "", "b"]` and `"".split("_") == [""]`. -/
def splitUnderscore : List Char → List (List Char)
  | [] => [[]]
  | c :: cs =>
    match splitUnderscore cs with
    | [] => [[]]
    | t :: ts => if c = '_' then [] :: t :: ts else (c :: t) :: ts

/-- The per-segment test of `extract_year_from_filename` (line 33 of
`organize_by_year.py`): `len(part) == 8 and part.isdigit()`, with `isdigit`
read as decimal (ASCII) digits, as the spec's glossary demands. -/
def isYYYYMMDD (part : List Char) : Bool :=
  part.length == 8 && part.all (fun c => c.isDigit)

/-- Lines 29-35 of `organize_by_year.py`: split the filename on underscores and
return the first four characters of the first segment that is exactly eight
decimal digits, or `none` when no segment qualifies. -/
def extract_year_from_filename (filename : String) : Option String :=
  match (splitUnderscore filename.toList).find? isYYYYMMDD with
  | some part => some (String.mk (part.take 4))
  | none => none

/-- Lines 38-44 of `organize_by_year.py`: the frozen options dataclass. -/
structure OrganizeOptions where
  source : Path
  dest : Path
  mode : String
  recursive : Bool
  dry_run : Bool

/-- The modelled filesystem: regular files with abstract contents, plus the set
of directories, both as lists. -/
structure FS where
  files : List (Path × Nat)
  dirs : List Path
deriving DecidableEq

/-- Well-formed filesystem: no two file entries share a path. -/
def FS.wf (fs : FS) : Prop := (fs.files.map Prod.fst).Nodup

/-- Python `Path.exists()`: the path is a directory or a regular file. -/
def pathExistsB (fs : FS) (p : Path) : Bool :=
  fs.dirs.contains p || fs.files.any (fun pc => pc.1 == p)

/-- Content lookup for a regular file. -/
def FS.lookupFile (fs : FS) (p : Path) : Option Nat :=
  (fs.files.find? (fun pc => pc.1 == p)).map Prod.snd

/-- Create a single directory with `exist_ok=True` semantics. -/
def FS.mkdirSingle (fs : FS) (p : Path) : FS :=
  if fs.dirs.contains p then fs else { fs with dirs := fs.dirs ++ [p] }

/-- The nonempty initial segments of a path, shortest first. -/
def prefixesOf : Path → List Path
  | [] => []
  | a :: rest => [a] :: (prefixesOf rest).map (fun q => a :: q)

/-- Python `Path.mkdir(parents=True, exist_ok=True)`: create the directory and
every missing ancestor. -/
def FS.mkdirParents (fs : FS) (p : Path) : FS :=
  (prefixesOf p).foldl FS.mkdirSingle fs

/-- Whether `p` is yielded for `source` by `source.glob("*")` (direct children)
or `source.rglob("*")` (strict descendants), per the recursive flag. -/
def isUnderB (source p : Path) (recursive : Bool) : Bool :=
  if recursive then (p.take source.length == source) && decide (source.length < p.length)
  else (p.dropLast == source) && (p.length == source.length + 1)

/-- Python `name.startswith(".")`: the first character is a dot. -/
def startsWithDot (name : String) : Bool :=
  match name.toList with
  | [] => false
  | c :: _ => c = '.'

/-- Lines 47-51 of `organize_by_year.py`: enumerate regular files under the
source per the recursive flag, excluding hidden files (final name starting
with a dot).  The glob also yields directories; `path.is_file()` keeps only
regular files, so we enumerate from `fs.files`. -/
def iter_candidate_files (fs : FS) (source : Path) (recursive : Bool) : List Path :=
  (fs.files.map Prod.fst).filter
    (fun p => isUnderB source p recursive && !(startsWithDot (pathName p)))

/-- Value of `Path(__file__).name` inside the script. -/
def SCRIPT_NAME : String := "organize_by_year.py"

/-- The two lists built by the planning loop of lines 60-73. -/
structure PlanResult where
  to_process : List (Path × Path)
  skipped : List Path

/-- Lines 64-73 of `organize_by_year.py`: for each candidate, skip the script's
own file, extract the year (a falsy result - `None` or the empty string - sends
the file to `skipped`), otherwise plan `dest / year / name` as destination. -/
def buildPlan (dest : Path) : List Path → PlanResult
  | [] => { to_process := [], skipped := [] }
  | fp :: rest =>
    if pathName fp == SCRIPT_NAME then buildPlan dest rest
    else
      match extract_year_from_filename (pathName fp) with
      | none =>
        let r := buildPlan dest rest
        { to_process := r.to_process, skipped := fp :: r.skipped }
      | some year =>
        if year == "" then
          let r := buildPlan dest rest
          { to_process := r.to_process, skipped := fp :: r.skipped }
        else
          let r := buildPlan dest rest
          { to_process := (fp, dest ++ [year, pathName fp]) :: r.to_process, skipped := r.skipped }

/-- Lines 86-88 of `organize_by_year.py`: pre-create the year directory of
every plan entry (`dst.parent`), with parents.  The source iterates the sorted
set of year names; deduplicated iteration in plan order creates the same
directories. -/
def createYearDirs (fs : FS) (plan : List (Path × Path)) : FS :=
  ((plan.map (fun e => e.2.dropLast)).dedup).foldl FS.mkdirParents fs

/-- Decides whether `shutil.copy2` / `shutil.move` raises for a given
(source, destination) pair: `true` means the operation fails. -/
abbrev Oracle := Path → Path → Bool

/-- Mutable state of the execution loop of lines 91-103: the filesystem, the
`moved` counter and the error messages printed so far (recorded by filename). -/
structure ExecState where
  fs : FS
  moved : Nat
  errors : List String

/-- Lines 92-103 of `organize_by_year.py`, one iteration: skip when the
destination exists; in dry-run just count; otherwise attempt the copy or move,
counting on success and logging the filename on a caught exception (a missing
source file raises `FileNotFoundError`, also caught). -/
def execEntry (opts : OrganizeOptions) (oracle : Oracle) (st : ExecState) (e : Path × Path) :
    ExecState :=
  if pathExistsB st.fs e.2 then st
  else if opts.dry_run then { st with moved := st.moved + 1 }
  else
    match st.fs.lookupFile e.1 with
    | none => { st with errors := st.errors ++ [pathName e.1] }
    | some c =>
      if oracle e.1 e.2 then { st with errors := st.errors ++ [pathName e.1] }
      else if opts.mode == "copy" then
        { st with
          fs := { st.fs with files := st.fs.files ++ [(e.2, c)] },
          moved := st.moved + 1 }
      else
        { st with
          fs := { st.fs with
                  files := (st.fs.files.filter (fun pc => pc.1 != e.1)) ++ [(e.2, c)] },
          moved := st.moved + 1 }

/-- The whole execution loop of lines 91-103. -/
def execPlan (opts : OrganizeOptions) (oracle : Oracle) : ExecState → List (Path × Path) → ExecState
  | st, [] => st
  | st, e :: rest => execPlan opts oracle (execEntry opts oracle st e) rest

/-- The fatal error of line 56: `FileNotFoundError` for a missing source. -/
inductive OrganizeError where
  | sourceNotFound (source : Path)
deriving DecidableEq

deriving instance DecidableEq for Except

/-- The counts the summary lines print: found candidates, matched (planned),
skipped, written or planned (`moved`), and the per-file error messages. -/
structure Summary where
  found : Nat
  matched : Nat
  skipped : Nat
  moved : Nat
  errors : List String
deriving DecidableEq

/-- Lines 54-109 of `organize_by_year.py`: raise when the source is missing,
create the destination root, enumerate candidates, build the plan, return
early when nothing is to process, otherwise pre-create year directories and
run the execution loop.  Returns the final filesystem together with the fatal
error or the printed summary counts. -/
def organize_files_by_year (opts : OrganizeOptions) (oracle : Oracle) (fs : FS) :
    FS × Except OrganizeError Summary :=
  if pathExistsB fs opts.source then
    let fs1 := FS.mkdirParents fs opts.dest
    let candidates := iter_candidate_files fs1 opts.source opts.recursive
    let plan := buildPlan opts.dest candidates
    if plan.to_process.isEmpty then
      (fs1, Except.ok
        { found := candidates.length, matched := plan.to_process.length,
          skipped := plan.skipped.length, moved := 0, errors := [] })
    else
      let fs2 := createYearDirs fs1 plan.to_process
      let final := execPlan opts oracle { fs := fs2, moved := 0, errors := [] } plan.to_process
      (final.fs, Except.ok
        { found := candidates.length, matched := plan.to_process.length,
          skipped := plan.skipped.length, moved := final.moved, errors := final.errors })
  else (fs, Except.error (OrganizeError.sourceNotFound opts.source))

/-- Abbreviation for the candidate listing a run works with (computed after the
destination root has been created). -/
def runCands (opts : OrganizeOptions) (fs : FS) : List Path :=
  iter_candidate_files (fs.mkdirParents opts.dest) opts.source opts.recursive

/-- Abbreviation for the plan a run computes. -/
def runPlan (opts : OrganizeOptions) (fs : FS) : PlanResult :=
  buildPlan opts.dest (runCands opts fs)

/-- Abbreviation for the filesystem right before the execution loop starts:
destination root and year directories created. -/
def runFS2 (opts : OrganizeOptions) (fs : FS) : FS :=
  createYearDirs (fs.mkdirParents opts.dest) (runPlan opts fs).to_process

/-- Abbreviation for the initial state of the execution loop. -/
def runInit (opts : OrganizeOptions) (fs : FS) : ExecState :=
  { fs := runFS2 opts fs, moved := 0, errors := [] }

/-! ### Basic lemmas about directory creation -/

theorem mkdirSingle_files (fs : FS) (p : Path) : (fs.mkdirSingle p).files = fs.files := by
  unfold FS.mkdirSingle
  split <;> rfl

theorem foldl_mkdirSingle_files (l : List Path) (fs : FS) :
    (l.foldl FS.mkdirSingle fs).files = fs.files := by
  induction l generalizing fs with
  | nil => rfl
  | cons q rest ih => rw [List.foldl_cons, ih, mkdirSingle_files]

theorem mkdirParents_files (fs : FS) (p : Path) : (fs.mkdirParents p).files = fs.files :=
  foldl_mkdirSingle_files _ _

theorem foldl_mkdirParents_files (l : List Path) (fs : FS) :
    (l.foldl FS.mkdirParents fs).files = fs.files := by
  induction l generalizing fs with
  | nil => rfl
  | cons q rest ih => rw [List.foldl_cons, ih, mkdirParents_files]

theorem createYearDirs_files (fs : FS) (plan : List (Path × Path)) :
    (createYearDirs fs plan).files = fs.files :=
  foldl_mkdirParents_files _ _

theorem mkdirSingle_dirs_mem (fs : FS) (q : Path) {d : Path} (h : d ∈ fs.dirs) :
    d ∈ (fs.mkdirSingle q).dirs := by
  unfold FS.mkdirSingle
  split
  · exact h
  · exact List.mem_append_left _ h

theorem foldl_mkdirSingle_dirs_mem (l : List Path) (fs : FS) {d : Path} (h : d ∈ fs.dirs) :
    d ∈ (l.foldl FS.mkdirSingle fs).dirs := by
  induction l generalizing fs with
  | nil => exact h
  | cons q rest ih => exact ih _ (mkdirSingle_dirs_mem _ _ h)

theorem mkdirParents_dirs_mem (fs : FS) (q : Path) {d : Path} (h : d ∈ fs.dirs) :
    d ∈ (fs.mkdirParents q).dirs :=
  foldl_mkdirSingle_dirs_mem _ _ h

theorem foldl_mkdirParents_dirs_mem (l : List Path) (fs : FS) {d : Path} (h : d ∈ fs.dirs) :
    d ∈ (l.foldl FS.mkdirParents fs).dirs := by
  induction l generalizing fs with
  | nil => exact h
  | cons q rest ih => exact ih _ (mkdirParents_dirs_mem _ _ h)

theorem pathExistsB_congr {fs fs' : FS} (p : Path)
    (hf : fs'.files = fs.files) (hd : ∀ d, d ∈ fs.dirs → d ∈ fs'.dirs)
    (h : pathExistsB fs p = true) : pathExistsB fs' p = true := by
  unfold pathExistsB at h ⊢
  rw [Bool.or_eq_true] at h ⊢
  rcases h with h | h
  · exact Or.inl (List.elem_eq_true_of_mem (hd p (List.mem_of_elem_eq_true h)))
  · exact Or.inr (hf ▸ h)

theorem mkdirParents_pathExists (fs : FS) (q : Path) {p : Path}
    (h : pathExistsB fs p = true) : pathExistsB (fs.mkdirParents q) p = true :=
  pathExistsB_congr p (mkdirParents_files _ _) (fun _ hd => mkdirParents_dirs_mem _ _ hd) h

theorem createYearDirs_pathExists (fs : FS) (plan : List (Path × Path)) {p : Path}
    (h : pathExistsB fs p = true) : pathExistsB (createYearDirs fs plan) p = true :=
  pathExistsB_congr p (createYearDirs_files _ _)
    (fun _ hd => foldl_mkdirParents_dirs_mem _ _ hd) h

theorem mkdirSingle_dirs_origin (fs : FS) (q : Path) {d : Path}
    (h : d ∈ (fs.mkdirSingle q).dirs) : d ∈ fs.dirs ∨ d = q := by
  unfold FS.mkdirSingle at h
  split at h
  · exact Or.inl h
  · rcases List.mem_append.mp h with h' | h'
    · exact Or.inl h'
    · exact Or.inr (List.mem_singleton.mp h')

theorem foldl_mkdirSingle_dirs_origin (l : List Path) (fs : FS) {d : Path}
    (h : d ∈ (l.foldl FS.mkdirSingle fs).dirs) : d ∈ fs.dirs ∨ d ∈ l := by
  induction l generalizing fs with
  | nil => exact Or.inl h
  | cons a rest ih =>
    rcases ih _ h with h' | h'
    · rcases mkdirSingle_dirs_origin fs a h' with h'' | h''
      · exact Or.inl h''
      · exact Or.inr (h'' ▸ List.mem_cons_self _ _)
    · exact Or.inr (List.mem_cons_of_mem _ h')

theorem mkdirParents_dirs_origin (fs : FS) (q : Path) {d : Path}
    (h : d ∈ (fs.mkdirParents q).dirs) : d ∈ fs.dirs ∨ d ∈ prefixesOf q :=
  foldl_mkdirSingle_dirs_origin _ _ h

theorem prefixesOf_concat (q : Path) (a : String) :
    prefixesOf (q ++ [a]) = prefixesOf q ++ [q ++ [a]] := by
  induction q with
  | nil => rfl
  | cons b rest ih => simp [prefixesOf, ih, List.map_append]

/-! ### The shape of plan entries -/

/-- Shape of every pair the planning loop appends to `to_process`: the
destination is `dest / year / name` for the extracted, non-falsy year. -/
def entryShape (dest : Path) (e : Path × Path) : Prop :=
  ∃ y, extract_year_from_filename (pathName e.1) = some y ∧ y ≠ "" ∧
    e.2 = dest ++ [y, pathName e.1]

/-- A path of the form `dest / year / name` where `year` is exactly the year
the extractor yields for `name`: the only paths the execution loop ever
writes. -/
def isCanonical (dest : Path) (p : Path) : Prop :=
  ∃ y, extract_year_from_filename (pathName p) = some y ∧ y ≠ "" ∧
    p = dest ++ [y, pathName p]

theorem pathName_concat2 (q : Path) (y n : String) : pathName (q ++ [y, n]) = n := by
  unfold pathName
  rw [show q ++ [y, n] = (q ++ [y]) ++ [n] by simp]
  simp

theorem entryShape_canonical {dest : Path} {e : Path × Path} (h : entryShape dest e) :
    isCanonical dest e.2 := by
  obtain ⟨y, hy, hne, hdst⟩ := h
  exact ⟨y, by rw [hdst, pathName_concat2]; exact hy, hne, by rw [hdst, pathName_concat2]⟩

theorem buildPlan_to_process_shape (dest : Path) (l : List Path) :
    ∀ e ∈ (buildPlan dest l).to_process,
      e.1 ∈ l ∧ pathName e.1 ≠ SCRIPT_NAME ∧ entryShape dest e := by
  induction l with
  | nil => intro e he; simp [buildPlan] at he
  | cons fp rest ih =>
    intro e he
    simp only [buildPlan] at he
    split at he
    · obtain ⟨h1, h2, h3⟩ := ih e he
      exact ⟨List.mem_cons_of_mem _ h1, h2, h3⟩
    · rename_i hscript
      split at he
      · obtain ⟨h1, h2, h3⟩ := ih e he
        exact ⟨List.mem_cons_of_mem _ h1, h2, h3⟩
      · rename_i year hyear
        split at he
        · obtain ⟨h1, h2, h3⟩ := ih e he
          exact ⟨List.mem_cons_of_mem _ h1, h2, h3⟩
        · rename_i hempty
          rcases List.mem_cons.mp he with h | h
          · subst h
            refine ⟨List.mem_cons_self _ _, by simpa using hscript,
              ⟨year, hyear, by simpa using hempty, rfl⟩⟩
          · obtain ⟨h1, h2, h3⟩ := ih e h
            exact ⟨List.mem_cons_of_mem _ h1, h2, h3⟩

theorem buildPlan_skipped_shape (dest : Path) (l : List Path) :
    ∀ p ∈ (buildPlan dest l).skipped,
      p ∈ l ∧ pathName p ≠ SCRIPT_NAME ∧
        (extract_year_from_filename (pathName p) = none ∨
         extract_year_from_filename (pathName p) = some "") := by
  induction l with
  | nil => intro p hp; simp [buildPlan] at hp
  | cons fp rest ih =>
    intro p hp
    simp only [buildPlan] at hp
    split at hp
    · obtain ⟨h1, h2, h3⟩ := ih p hp
      exact ⟨List.mem_cons_of_mem _ h1, h2, h3⟩
    · rename_i hscript
      split at hp
      · rename_i hyear
        rcases List.mem_cons.mp hp with h | h
        · subst h
          exact ⟨List.mem_cons_self _ _, by simpa using hscript, Or.inl hyear⟩
        · obtain ⟨h1, h2, h3⟩ := ih p h
          exact ⟨List.mem_cons_of_mem _ h1, h2, h3⟩
      · rename_i year hyear
        split at hp
        · rename_i hempty
          rcases List.mem_cons.mp hp with h | h
          · subst h
            refine ⟨List.mem_cons_self _ _, by simpa using hscript, Or.inr ?_⟩
            rw [hyear]
            simpa using hempty
          · obtain ⟨h1, h2, h3⟩ := ih p h
            exact ⟨List.mem_cons_of_mem _ h1, h2, h3⟩
        · obtain ⟨h1, h2, h3⟩ := ih p hp
          exact ⟨List.mem_cons_of_mem _ h1, h2, h3⟩

theorem buildPlan_to_process_complete (dest : Path) (l : List Path) {fp : Path} {y : String}
    (hmem : fp ∈ l) (hs : pathName fp ≠ SCRIPT_NAME)
    (hy : extract_year_from_filename (pathName fp) = some y) (hne : y ≠ "") :
    (fp, dest ++ [y, pathName fp]) ∈ (buildPlan dest l).to_process := by
  induction l with
  | nil => cases hmem
  | cons hd rest ih =>
    rcases List.mem_cons.mp hmem with h | h
    · subst h
      have hs' : (pathName fp == SCRIPT_NAME) = false := by simpa using hs
      have hne' : (y == "") = false := by simpa using hne
      simp [buildPlan, hs', hy, hne']
    · simp only [buildPlan]
      split
      · exact ih h
      · split
        · exact ih h
        · split
          · exact ih h
          · exact List.mem_cons_of_mem _ (ih h)

theorem buildPlan_skipped_complete (dest : Path) (l : List Path) {fp : Path}
    (hmem : fp ∈ l) (hs : pathName fp ≠ SCRIPT_NAME)
    (hy : extract_year_from_filename (pathName fp) = none ∨
          extract_year_from_filename (pathName fp) = some "") :
    fp ∈ (buildPlan dest l).skipped := by
  induction l with
  | nil => cases hmem
  | cons hd rest ih =>
    rcases List.mem_cons.mp hmem with h | h
    · subst h
      have hs' : (pathName fp == SCRIPT_NAME) = false := by simpa using hs
      rcases hy with hy | hy <;> simp [buildPlan, hs', hy]
    · simp only [buildPlan]
      split
      · exact ih h
      · split
        · exact List.mem_cons_of_mem _ (ih h)
        · split
          · exact List.mem_cons_of_mem _ (ih h)
          · exact ih h

theorem buildPlan_count (dest : Path) (l : List Path) :
    l.length = (buildPlan dest l).to_process.length + (buildPlan dest l).skipped.length +
      l.countP (fun fp => pathName fp == SCRIPT_NAME) := by
  induction l with
  | nil => simp [buildPlan]
  | cons fp rest ih =>
    simp only [buildPlan, List.length_cons, List.countP_cons]
    split
    · omega
    · split
      · dsimp only
        simp only [List.length_cons]
        omega
      · split
        · dsimp only
          simp only [List.length_cons]
          omega
        · dsimp only
          simp only [List.length_cons]
          omega

theorem buildPlan_srcs_sublist (dest : Path) (l : List Path) :
    ((buildPlan dest l).to_process.map Prod.fst).Sublist l := by
  induction l with
  | nil => simp [buildPlan]
  | cons fp rest ih =>
    simp only [buildPlan]
    split
    · exact ih.cons _
    · split
      · exact ih.cons _
      · split
        · exact ih.cons _
        · simpa using ih.cons₂ fp

/-! ### Candidate enumeration lemmas -/

theorem iter_candidate_mem {fs : FS} {source p : Path} {recursive : Bool}
    (h : p ∈ iter_candidate_files fs source recursive) :
    p ∈ fs.files.map Prod.fst ∧ isUnderB source p recursive = true := by
  have h' := List.mem_filter.mp h
  refine ⟨h'.1, ?_⟩
  have := h'.2
  rw [Bool.and_eq_true] at this
  exact this.1

theorem iter_candidate_congr {fs fs' : FS} (source : Path) (recursive : Bool)
    (h : fs'.files = fs.files) :
    iter_candidate_files fs' source recursive = iter_candidate_files fs source recursive := by
  unfold iter_candidate_files
  rw [h]

theorem isUnderB_ne_source {source p : Path} {recursive : Bool}
    (h : isUnderB source p recursive = true) : p ≠ source := by
  intro hEq
  subst hEq
  unfold isUnderB at h
  split at h <;> rw [Bool.and_eq_true] at h
  · have := of_decide_eq_true h.2
    omega
  · have := h.2
    rw [beq_iff_eq] at this
    omega

theorem iter_candidate_nodup {fs : FS} (source : Path) (recursive : Bool) (hwf : fs.wf) :
    (iter_candidate_files fs source recursive).Nodup := by
  unfold iter_candidate_files
  exact hwf.filter _

/-! ### Association-list lookup helpers -/

theorem find?_key_append_some {l : List (Path × Nat)} {p : Path} {v : Path × Nat}
    (x : Path × Nat) (h : l.find? (fun pc => pc.1 == p) = some v) :
    (l ++ [x]).find? (fun pc => pc.1 == p) = some v := by
  rw [List.find?_append, h]
  rfl

theorem find?_key_append_none {l : List (Path × Nat)} {p : Path} (x : Path × Nat)
    (h : l.find? (fun pc => pc.1 == p) = none) :
    (l ++ [x]).find? (fun pc => pc.1 == p) = [x].find? (fun pc => pc.1 == p) := by
  rw [List.find?_append, h]
  rfl

theorem find?_key_filter_ne {l : List (Path × Nat)} {p s : Path} (hne : p ≠ s) :
    (l.filter (fun pc => pc.1 != s)).find? (fun pc => pc.1 == p) =
      l.find? (fun pc => pc.1 == p) := by
  induction l with
  | nil => rfl
  | cons x xs ih =>
    rw [List.filter_cons]
    split
    · by_cases hx : (x.1 == p) = true
      · simp only [List.find?_cons, hx]
      · rw [Bool.not_eq_true] at hx
        simp only [List.find?_cons, hx]
        exact ih
    · rename_i hdrop
      have hxs : x.1 = s := by simpa using hdrop
      have hx : (x.1 == p) = false := by
        rw [hxs]
        exact beq_eq_false_iff_ne.mpr (fun h => hne h.symm)
      simp only [List.find?_cons, hx]
      exact ih

theorem any_key_filter_ne {l : List (Path × Nat)} {p s : Path} (hne : p ≠ s)
    (h : l.any (fun pc => pc.1 == p) = true) :
    (l.filter (fun pc => pc.1 != s)).any (fun pc => pc.1 == p) = true := by
  rw [List.any_eq_true] at h ⊢
  obtain ⟨pc, hmem, hpc⟩ := h
  refine ⟨pc, List.mem_filter.mpr ⟨hmem, ?_⟩, hpc⟩
  have hp : pc.1 = p := by simpa using hpc
  simp [hp, hne]

theorem lookup_pathExists {fs : FS} {p : Path} {c : Nat} (h : fs.lookupFile p = some c) :
    pathExistsB fs p = true := by
  unfold FS.lookupFile at h
  unfold pathExistsB
  rw [Bool.or_eq_true, List.any_eq_true]
  cases hfind : fs.files.find? (fun pc => pc.1 == p) with
  | none => rw [hfind] at h; cases h
  | some pc =>
    have hp := List.find?_some hfind
    exact Or.inr ⟨pc, List.mem_of_find?_eq_some hfind, hp⟩

theorem canonical_src_eq {dest : Path} {e : Path × Path} (hshape : entryShape dest e)
    (hc : isCanonical dest e.1) : e.1 = e.2 := by
  obtain ⟨y, hy, hney, hdst⟩ := hshape
  obtain ⟨y', hy', hney', hp⟩ := hc
  rw [hy] at hy'
  injection hy' with h
  rw [hdst, h]
  exact hp

/-! ### Single-step execution lemmas -/

theorem execEntry_dirs (opts : OrganizeOptions) (orc : Oracle) (st : ExecState)
    (e : Path × Path) : (execEntry opts orc st e).fs.dirs = st.fs.dirs := by
  unfold execEntry
  split
  · rfl
  split
  · rfl
  split
  · rfl
  split
  · rfl
  split
  · rfl
  · rfl

theorem execEntry_skip {opts : OrganizeOptions} {orc : Oracle} {st : ExecState}
    {e : Path × Path} (h : pathExistsB st.fs e.2 = true) : execEntry opts orc st e = st := by
  unfold execEntry
  rw [if_pos h]

theorem execEntry_dry_fs {opts : OrganizeOptions} (orc : Oracle) (st : ExecState)
    (e : Path × Path) (hdry : opts.dry_run = true) :
    (execEntry opts orc st e).fs = st.fs := by
  unfold execEntry
  rw [hdry]
  split
  · rfl
  · rfl

theorem execEntry_canonical_persists {dest : Path} {opts : OrganizeOptions} {orc : Oracle}
    {st : ExecState} {e : Path × Path} (hshape : entryShape dest e) {p : Path}
    (hc : isCanonical dest p) (h : pathExistsB st.fs p = true) :
    pathExistsB (execEntry opts orc st e).fs p = true := by
  unfold execEntry
  split
  · exact h
  rename_i hnex
  split
  · exact h
  split
  · exact h
  rename_i c hlook
  split
  · exact h
  split
  · -- copy: files grow by the destination entry
    unfold pathExistsB at h ⊢
    rw [Bool.or_eq_true] at h ⊢
    rcases h with h | h
    · exact Or.inl h
    · rw [List.any_append]
      exact Or.inr (by rw [h]; rfl)
  · -- move: the filter removes only the entry source, which is not canonical
    have hne : p ≠ e.1 := by
      intro hEq
      subst hEq
      exact hnex ((canonical_src_eq hshape hc) ▸ h)
    unfold pathExistsB at h ⊢
    rw [Bool.or_eq_true] at h ⊢
    rcases h with h | h
    · exact Or.inl h
    · rw [List.any_append, Bool.or_eq_true]
      exact Or.inr (Or.inl (any_key_filter_ne hne h))

theorem execEntry_dst_exists {opts : OrganizeOptions} {orc : Oracle} {st : ExecState}
    {e : Path × Path} (hdry : opts.dry_run = false) (horc : orc e.1 e.2 = false)
    (h : (st.fs.lookupFile e.1).isSome ∨ pathExistsB st.fs e.2 = true) :
    pathExistsB (execEntry opts orc st e).fs e.2 = true := by
  unfold execEntry
  split
  · assumption
  rename_i hnex
  rw [hdry]
  simp only [Bool.false_eq_true, if_false]
  split
  · rename_i hlook
    rcases h with h | h
    · rw [hlook] at h
      cases h
    · exact absurd h hnex
  rw [horc]
  simp only [Bool.false_eq_true, if_false]
  have hlast : ∀ (l : List (Path × Nat)) (c : Nat),
      pathExistsB { st.fs with files := l ++ [(e.2, c)] } e.2 = true := by
    intro l c
    unfold pathExistsB
    rw [Bool.or_eq_true, List.any_append]
    exact Or.inr (by rw [Bool.or_eq_true]; exact Or.inr (by simp))
  split
  · exact hlast _ _
  · exact hlast _ _

theorem execEntry_lookup_preserve {opts : OrganizeOptions} {orc : Oracle} {st : ExecState}
    {e : Path × Path} {p : Path} {c : Nat} (hne : p ≠ e.1)
    (h : st.fs.lookupFile p = some c) :
    (execEntry opts orc st e).fs.lookupFile p = some c := by
  unfold execEntry
  split
  · exact h
  split
  · exact h
  split
  · exact h
  split
  · exact h
  unfold FS.lookupFile at h ⊢
  rw [Option.map_eq_some'] at h
  obtain ⟨v, hv, hvc⟩ := h
  split
  · dsimp only
    rw [find?_key_append_some _ hv]
    rw [Option.map_some']
    rw [hvc]
  · dsimp only
    rw [find?_key_append_some _ (by rw [find?_key_filter_ne hne]; exact hv)]
    rw [Option.map_some']
    rw [hvc]

theorem execEntry_pathExists_preserve {opts : OrganizeOptions} {orc : Oracle} {st : ExecState}
    {e : Path × Path} {p : Path} (hne : p ≠ e.1) (h : pathExistsB st.fs p = true) :
    pathExistsB (execEntry opts orc st e).fs p = true := by
  unfold execEntry
  split
  · exact h
  split
  · exact h
  split
  · exact h
  split
  · exact h
  unfold pathExistsB at h
  rw [Bool.or_eq_true] at h
  split
  · unfold pathExistsB
    rw [Bool.or_eq_true, List.any_append]
    rcases h with h | h
    · exact Or.inl h
    · exact Or.inr (by rw [Bool.or_eq_true]; exact Or.inl h)
  · unfold pathExistsB
    rw [Bool.or_eq_true, List.any_append]
    rcases h with h | h
    · exact Or.inl h
    · exact Or.inr (by rw [Bool.or_eq_true]; exact Or.inl (any_key_filter_ne hne h))

theorem execEntry_files_origin {opts : OrganizeOptions} {orc : Oracle} {st : ExecState}
    {e : Path × Path} {pc : Path × Nat} (h : pc ∈ (execEntry opts orc st e).fs.files) :
    pc ∈ st.fs.files ∨ pc.1 = e.2 := by
  unfold execEntry at h
  split at h
  · exact Or.inl h
  split at h
  · exact Or.inl h
  split at h
  · exact Or.inl h
  split at h
  · exact Or.inl h
  split at h
  · rcases List.mem_append.mp h with h' | h'
    · exact Or.inl h'
    · exact Or.inr (by rw [List.mem_singleton.mp h'])
  · rcases List.mem_append.mp h with h' | h'
    · exact Or.inl (List.mem_of_mem_filter h')
    · exact Or.inr (by rw [List.mem_singleton.mp h'])

theorem lookup_none_iff {fs : FS} {p : Path} :
    fs.lookupFile p = none ↔ fs.files.find? (fun pc => pc.1 == p) = none := by
  unfold FS.lookupFile
  exact Option.map_eq_none'

theorem find?_key_filter_none {l : List (Path × Nat)} {p : Path} (q : Path × Nat → Bool)
    (h : l.find? (fun pc => pc.1 == p) = none) :
    (l.filter q).find? (fun pc => pc.1 == p) = none := by
  rw [List.find?_eq_none] at h ⊢
  intro x hx
  exact h x (List.mem_of_mem_filter hx)

theorem find?_key_singleton_ne {p d : Path} {c : Nat} (hne : d ≠ p) :
    ([(d, c)] : List (Path × Nat)).find? (fun pc => pc.1 == p) = none := by
  rw [List.find?_eq_none]
  intro x hx
  rw [List.mem_singleton.mp hx]
  simp [hne]

theorem execEntry_content_step {dest : Path} {opts : OrganizeOptions} {orc : Oracle}
    {st : ExecState} {e : Path × Path} (hshape : entryShape dest e) {p : Path} {c : Nat}
    (h : st.fs.lookupFile p = some c ∨ (st.fs.lookupFile p = none ∧ ¬ isCanonical dest p)) :
    (execEntry opts orc st e).fs.lookupFile p = some c ∨
      ((execEntry opts orc st e).fs.lookupFile p = none ∧ ¬ isCanonical dest p) := by
  unfold execEntry
  split
  · exact h
  rename_i hnex
  split
  · exact h
  split
  · exact h
  rename_i cc hlook
  split
  · exact h
  have hne12 : e.1 ≠ e.2 := fun hEq => hnex (hEq ▸ lookup_pathExists hlook)
  have hsrc_ncanon : ¬ isCanonical dest e.1 := fun hc => hne12 (canonical_src_eq hshape hc)
  have hdst_canon : isCanonical dest e.2 := entryShape_canonical hshape
  split
  · -- copy branch: files grow by [(e.2, cc)]
    rcases h with h | ⟨hnone, hncan⟩
    · refine Or.inl ?_
      unfold FS.lookupFile at h ⊢
      rw [Option.map_eq_some'] at h
      obtain ⟨v, hv, hvc⟩ := h
      dsimp only
      rw [find?_key_append_some _ hv, Option.map_some', hvc]
    · refine Or.inr ⟨?_, hncan⟩
      have hpd : e.2 ≠ p := fun hEq => hncan (hEq ▸ hdst_canon)
      rw [lookup_none_iff] at hnone ⊢
      dsimp only
      rw [find?_key_append_none _ hnone]
      exact find?_key_singleton_ne hpd
  · -- move branch: the source entry is removed, [(e.2, cc)] appended
    rcases h with h | ⟨hnone, hncan⟩
    · by_cases hpe : p = e.1
      · subst hpe
        refine Or.inr ⟨?_, hsrc_ncanon⟩
        rw [lookup_none_iff]
        dsimp only
        have hfilter : (st.fs.files.filter (fun pc => pc.1 != e.1)).find?
            (fun pc => pc.1 == e.1) = none := by
          rw [List.find?_eq_none]
          intro x hx
          have hx2 := (List.mem_filter.mp hx).2
          simp only [bne_iff_ne, ne_eq] at hx2
          simp [hx2]
        rw [find?_key_append_none _ hfilter]
        exact find?_key_singleton_ne (fun hEq => hne12 hEq.symm)
      · refine Or.inl ?_
        unfold FS.lookupFile at h ⊢
        rw [Option.map_eq_some'] at h
        obtain ⟨v, hv, hvc⟩ := h
        dsimp only
        rw [find?_key_append_some _ (by rw [find?_key_filter_ne hpe]; exact hv),
          Option.map_some', hvc]
    · refine Or.inr ⟨?_, hncan⟩
      have hpd : e.2 ≠ p := fun hEq => hncan (hEq ▸ hdst_canon)
      rw [lookup_none_iff] at hnone ⊢
      dsimp only
      rw [find?_key_append_none _ (find?_key_filter_none _ hnone)]
      exact find?_key_singleton_ne hpd

/-! ### Whole-plan execution lemmas -/

theorem execPlan_dirs (opts : OrganizeOptions) (orc : Oracle) (st : ExecState)
    (l : List (Path × Path)) : (execPlan opts orc st l).fs.dirs = st.fs.dirs := by
  induction l generalizing st with
  | nil => rfl
  | cons e rest ih => rw [execPlan, ih, execEntry_dirs]

theorem execPlan_canonical_persists {dest : Path} {opts : OrganizeOptions} {orc : Oracle}
    {st : ExecState} {l : List (Path × Path)} (hshape : ∀ e ∈ l, entryShape dest e)
    {p : Path} (hc : isCanonical dest p) (h : pathExistsB st.fs p = true) :
    pathExistsB (execPlan opts orc st l).fs p = true := by
  induction l generalizing st with
  | nil => exact h
  | cons e rest ih =>
    rw [execPlan]
    exact ih (fun e' he' => hshape e' (List.mem_cons_of_mem _ he'))
      (execEntry_canonical_persists (hshape e (List.mem_cons_self _ _)) hc h)

theorem execPlan_pathExists_preserve {opts : OrganizeOptions} {orc : Oracle}
    {st : ExecState} {l : List (Path × Path)} {p : Path} (hne : ∀ e ∈ l, e.1 ≠ p)
    (h : pathExistsB st.fs p = true) :
    pathExistsB (execPlan opts orc st l).fs p = true := by
  induction l generalizing st with
  | nil => exact h
  | cons e rest ih =>
    rw [execPlan]
    exact ih (fun e' he' => hne e' (List.mem_cons_of_mem _ he'))
      (execEntry_pathExists_preserve
        (fun hEq => hne e (List.mem_cons_self _ _) hEq.symm) h)

theorem execPlan_lookup_preserve {opts : OrganizeOptions} {orc : Oracle}
    {st : ExecState} {l : List (Path × Path)} {p : Path} {c : Nat}
    (hne : ∀ e ∈ l, e.1 ≠ p) (h : st.fs.lookupFile p = some c) :
    (execPlan opts orc st l).fs.lookupFile p = some c := by
  induction l generalizing st with
  | nil => exact h
  | cons e rest ih =>
    rw [execPlan]
    exact ih (fun e' he' => hne e' (List.mem_cons_of_mem _ he'))
      (execEntry_lookup_preserve (fun hEq => hne e (List.mem_cons_self _ _) hEq.symm) h)

theorem execPlan_content {dest : Path} {opts : OrganizeOptions} {orc : Oracle}
    {st : ExecState} {l : List (Path × Path)} (hshape : ∀ e ∈ l, entryShape dest e)
    {p : Path} {c : Nat}
    (h : st.fs.lookupFile p = some c ∨ (st.fs.lookupFile p = none ∧ ¬ isCanonical dest p)) :
    (execPlan opts orc st l).fs.lookupFile p = some c ∨
      ((execPlan opts orc st l).fs.lookupFile p = none ∧ ¬ isCanonical dest p) := by
  induction l generalizing st with
  | nil => exact h
  | cons e rest ih =>
    rw [execPlan]
    exact ih (fun e' he' => hshape e' (List.mem_cons_of_mem _ he'))
      (execEntry_content_step (hshape e (List.mem_cons_self _ _)) h)

theorem execPlan_files_origin {dest : Path} {opts : OrganizeOptions} {orc : Oracle}
    {st : ExecState} {l : List (Path × Path)} (hshape : ∀ e ∈ l, entryShape dest e)
    {pc : Path × Nat} (h : pc ∈ (execPlan opts orc st l).fs.files) :
    pc ∈ st.fs.files ∨ isCanonical dest pc.1 := by
  induction l generalizing st with
  | nil => exact Or.inl h
  | cons e rest ih =>
    rw [execPlan] at h
    rcases ih (fun e' he' => hshape e' (List.mem_cons_of_mem _ he')) h with h' | h'
    · rcases execEntry_files_origin h' with h'' | h''
      · exact Or.inl h''
      · exact Or.inr (h'' ▸ entryShape_canonical (hshape e (List.mem_cons_self _ _)))
    · exact Or.inr h'

theorem execPlan_all_skip {opts : OrganizeOptions} {orc : Oracle} {st : ExecState}
    {l : List (Path × Path)} (h : ∀ e ∈ l, pathExistsB st.fs e.2 = true) :
    execPlan opts orc st l = st := by
  induction l with
  | nil => rfl
  | cons e rest ih =>
    rw [execPlan, execEntry_skip (h e (List.mem_cons_self _ _))]
    exact ih (fun e' he' => h e' (List.mem_cons_of_mem _ he'))

theorem execPlan_dry_fs {opts : OrganizeOptions} (orc : Oracle) (st : ExecState)
    (l : List (Path × Path)) (hdry : opts.dry_run = true) :
    (execPlan opts orc st l).fs = st.fs := by
  induction l generalizing st with
  | nil => rfl
  | cons e rest ih => rw [execPlan, ih, execEntry_dry_fs _ _ _ hdry]

theorem execPlan_dst_all_exist {dest : Path} {opts : OrganizeOptions} {orc : Oracle}
    {st : ExecState} {l : List (Path × Path)} (hdry : opts.dry_run = false)
    (horc : ∀ s d, orc s d = false) (hshape : ∀ e ∈ l, entryShape dest e)
    (hnodup : (l.map Prod.fst).Nodup)
    (hava : ∀ e ∈ l, (st.fs.lookupFile e.1).isSome = true ∨ pathExistsB st.fs e.2 = true) :
    ∀ e ∈ l, pathExistsB (execPlan opts orc st l).fs e.2 = true := by
  induction l generalizing st with
  | nil => intro e he; cases he
  | cons e rest ih =>
    have hhead : pathExistsB (execEntry opts orc st e).fs e.2 = true := by
      rcases hava e (List.mem_cons_self _ _) with hs | hx
      · obtain ⟨c, hc⟩ := Option.isSome_iff_exists.mp hs
        exact execEntry_dst_exists hdry (horc e.1 e.2) (Or.inl (by rw [hc]; rfl))
      · exact execEntry_dst_exists hdry (horc e.1 e.2) (Or.inr hx)
    have hne_head : ∀ e' ∈ rest, e'.1 ≠ e.1 := by
      intro e' he' hEq
      rw [List.map_cons] at hnodup
      exact (List.nodup_cons.mp hnodup).1 (hEq ▸ List.mem_map_of_mem Prod.fst he')
    have hnodup' : (rest.map Prod.fst).Nodup := by
      rw [List.map_cons] at hnodup
      exact hnodup.of_cons
    have hrest := ih (fun e' he' => hshape e' (List.mem_cons_of_mem _ he')) hnodup'
      (by
        intro e' he'
        rcases hava e' (List.mem_cons_of_mem _ he') with hs | hx
        · obtain ⟨c, hc⟩ := Option.isSome_iff_exists.mp hs
          exact Or.inl (by
            rw [@execEntry_lookup_preserve opts orc st e e'.1 c (hne_head e' he') hc]
            rfl)
        · exact Or.inr (execEntry_canonical_persists (hshape e (List.mem_cons_self _ _))
            (entryShape_canonical (hshape e' (List.mem_cons_of_mem _ he'))) hx))
    intro e' he'
    rcases List.mem_cons.mp he' with h | h
    · subst h
      rw [execPlan]
      exact execPlan_canonical_persists (fun x hx => hshape x (List.mem_cons_of_mem _ hx))
        (entryShape_canonical (hshape e' (List.mem_cons_self _ _))) hhead
    · rw [execPlan]
      exact hrest e' h

/-! ### Whole-run helper lemmas -/

theorem lookup_congr {fs fs' : FS} (h : fs'.files = fs.files) (p : Path) :
    fs'.lookupFile p = fs.lookupFile p := by
  unfold FS.lookupFile
  rw [h]

theorem organize_eq {opts : OrganizeOptions} {orc : Oracle} {fs : FS}
    (h : pathExistsB fs opts.source = true) :
    organize_files_by_year opts orc fs =
      (let fs1 := fs.mkdirParents opts.dest
       let candidates := iter_candidate_files fs1 opts.source opts.recursive
       let plan := buildPlan opts.dest candidates
       if plan.to_process.isEmpty then
         (fs1, Except.ok
           { found := candidates.length, matched := plan.to_process.length,
             skipped := plan.skipped.length, moved := 0, errors := [] })
       else
         let fs2 := createYearDirs fs1 plan.to_process
         let final := execPlan opts orc { fs := fs2, moved := 0, errors := [] } plan.to_process
         (final.fs, Except.ok
           { found := candidates.length, matched := plan.to_process.length,
             skipped := plan.skipped.length, moved := final.moved, errors := final.errors })) := by
  unfold organize_files_by_year
  rw [if_pos h]

theorem organize_error {opts : OrganizeOptions} {orc : Oracle} {fs : FS}
    (h : pathExistsB fs opts.source = false) :
    organize_files_by_year opts orc fs =
      (fs, Except.error (OrganizeError.sourceNotFound opts.source)) := by
  unfold organize_files_by_year
  rw [if_neg (by rw [h]; exact Bool.false_ne_true)]

theorem organize_ok {opts : OrganizeOptions} {orc : Oracle} {fs : FS}
    (h : pathExistsB fs opts.source = true) :
    ∃ s, (organize_files_by_year opts orc fs).2 = Except.ok s := by
  rw [organize_eq h]
  dsimp only
  split
  · exact ⟨_, rfl⟩
  · exact ⟨_, rfl⟩

theorem dropLast_concat2 (q : Path) (y n : String) : (q ++ [y, n]).dropLast = q ++ [y] := by
  rw [show q ++ [y, n] = (q ++ [y]) ++ [n] by simp]
  exact List.dropLast_concat

theorem foldl_mkdirParents_dirs_origin (l : List Path) (fs : FS) {d : Path}
    (h : d ∈ (l.foldl FS.mkdirParents fs).dirs) :
    d ∈ fs.dirs ∨ ∃ q ∈ l, d ∈ prefixesOf q := by
  induction l generalizing fs with
  | nil => exact Or.inl h
  | cons a rest ih =>
    rcases ih _ h with h' | ⟨q, hq, hd⟩
    · rcases mkdirParents_dirs_origin fs a h' with h'' | h''
      · exact Or.inl h''
      · exact Or.inr ⟨a, List.mem_cons_self _ _, h''⟩
    · exact Or.inr ⟨q, List.mem_cons_of_mem _ hq, hd⟩

theorem createYearDirs_dirs_origin {dest : Path} {fs : FS} {plan : List (Path × Path)}
    (hshape : ∀ e ∈ plan, entryShape dest e) {d : Path}
    (h : d ∈ (createYearDirs fs plan).dirs) :
    d ∈ fs.dirs ∨ d ∈ prefixesOf dest ∨ ∃ y, d = dest ++ [y] := by
  unfold createYearDirs at h
  rcases foldl_mkdirParents_dirs_origin _ _ h with h' | ⟨q, hq, hd⟩
  · exact Or.inl h'
  · have hq' := List.mem_dedup.mp hq
    obtain ⟨e, he, hqe⟩ := List.mem_map.mp hq'
    obtain ⟨y, _, _, hdst⟩ := hshape e he
    rw [← hqe, hdst, dropLast_concat2] at hd
    rw [prefixesOf_concat] at hd
    rcases List.mem_append.mp hd with hd' | hd'
    · exact Or.inr (Or.inl hd')
    · exact Or.inr (Or.inr ⟨y, List.mem_singleton.mp hd'⟩)

/-! ### The claims -/

/-- C1: for every filename whose underscore-split segments contain at least one
segment of exactly eight decimal digits, `extract_year_from_filename` returns
the first four characters of the first such segment in left-to-right order
(with no validation that this prefix is a plausible calendar year). -/
theorem C1_extract_first_8digit_segment (filename : String)
    (h : (splitUnderscore filename.toList).any isYYYYMMDD = true) :
    ∃ part l₁ l₂, splitUnderscore filename.toList = l₁ ++ part :: l₂ ∧
      (∀ q ∈ l₁, isYYYYMMDD q = false) ∧ isYYYYMMDD part = true ∧
      extract_year_from_filename filename = some (String.mk (part.take 4)) := by
  rw [List.any_eq_true] at h
  obtain ⟨x, hmem, hx⟩ := h
  have hsome : ((splitUnderscore filename.toList).find? isYYYYMMDD).isSome :=
    List.find?_isSome.mpr ⟨x, hmem, hx⟩
  obtain ⟨part, hfind⟩ := Option.isSome_iff_exists.mp hsome
  obtain ⟨hp, l₁, l₂, heq, hbefore⟩ := List.find?_eq_some.mp hfind
  refine ⟨part, l₁, l₂, heq, ?_, hp, ?_⟩
  · intro q hq
    have hq' := hbefore q hq
    simpa using hq'
  · unfold extract_year_from_filename
    rw [hfind]

/-- Witness for C1 at the Landsat example filename: the eight-digit segment
`20150414` is the first qualifying segment, and the extractor yields `2015`;
the implausible prefix `9999` also passes. -/
theorem C1_extract_first_8digit_segment_witness :
    ((splitUnderscore
        (String.toList "LC08_L2SP_141055_20150414_20200908_02_T1_SR_B4.TIF")).any
      isYYYYMMDD = true) ∧
    (∃ part l₁ l₂,
      splitUnderscore (String.toList "LC08_L2SP_141055_20150414_20200908_02_T1_SR_B4.TIF") =
        l₁ ++ part :: l₂ ∧
      (∀ q ∈ l₁, isYYYYMMDD q = false) ∧ isYYYYMMDD part = true ∧
      extract_year_from_filename "LC08_L2SP_141055_20150414_20200908_02_T1_SR_B4.TIF" =
        some (String.mk (part.take 4))) ∧
    extract_year_from_filename "LC08_L2SP_141055_20150414_20200908_02_T1_SR_B4.TIF" =
      some "2015" ∧
    extract_year_from_filename "x_99990101_y.TIF" = some "9999" :=
  ⟨by decide, C1_extract_first_8digit_segment _ (by decide), by decide, by decide⟩

/-- C4: whenever the source directory does not exist, the organizer raises the
fatal source-not-found error and performs no filesystem mutation at all: the
returned filesystem is exactly the input one. -/
theorem C4_source_missing_aborts_unchanged (opts : OrganizeOptions) (orc : Oracle) (fs : FS)
    (h : pathExistsB fs opts.source = false) :
    organize_files_by_year opts orc fs =
      (fs, Except.error (OrganizeError.sourceNotFound opts.source)) :=
  organize_error h

/-- Witness for C4: a concrete run whose source directory is absent aborts
with the fatal error and leaves the filesystem untouched. -/
theorem C4_source_missing_aborts_unchanged_witness :
    organize_files_by_year ⟨["missing"], ["d"], "copy", false, false⟩ (fun _ _ => false)
        ⟨[(["a"], 0)], [["b"]]⟩ =
      (⟨[(["a"], 0)], [["b"]]⟩, Except.error (OrganizeError.sourceNotFound ["missing"])) :=
  C4_source_missing_aborts_unchanged _ _ _ (by decide)

/-- C9: for every filename with no underscore-delimited segment of exactly
eight decimal digits, the extractor returns `none`, and the planning loop puts
any candidate bearing such a name into the skipped list and into no plan
entry, so the file is never copied or moved. -/
theorem C9_no_year_token_skipped (filename : String)
    (hall : (splitUnderscore filename.toList).all (fun part => !isYYYYMMDD part) = true) :
    extract_year_from_filename filename = none ∧
    ∀ (dest : Path) (cands : List Path) (fp : Path), fp ∈ cands →
      pathName fp = filename → filename ≠ SCRIPT_NAME →
      fp ∈ (buildPlan dest cands).skipped ∧
        ∀ e ∈ (buildPlan dest cands).to_process, e.1 ≠ fp := by
  have hnone : (splitUnderscore filename.toList).find? isYYYYMMDD = none := by
    rw [List.find?_eq_none]
    intro x hx
    rw [List.all_eq_true] at hall
    have hx' := hall x hx
    simpa using hx'
  have hext : extract_year_from_filename filename = none := by
    unfold extract_year_from_filename
    rw [hnone]
  refine ⟨hext, ?_⟩
  intro dest cands fp hmem hname hscript
  constructor
  · exact buildPlan_skipped_complete dest cands hmem (by rw [hname]; exact hscript)
      (Or.inl (by rw [hname]; exact hext))
  · intro e he hEq
    obtain ⟨_, _, y, hy, _, _⟩ := buildPlan_to_process_shape dest cands e he
    rw [hEq, hname, hext] at hy
    cases hy

/-- Witness for C9 at `readme.txt`: the extractor returns `none` and a
concrete candidate named `readme.txt` lands in the skipped list. -/
theorem C9_no_year_token_skipped_witness :
    ((splitUnderscore (String.toList "readme.txt")).all
        (fun part => !isYYYYMMDD part) = true) ∧
    extract_year_from_filename "readme.txt" = none ∧
    (["s", "readme.txt"] : Path) ∈ (buildPlan ["d"] [["s", "readme.txt"]]).skipped :=
  ⟨by decide, (C9_no_year_token_skipped "readme.txt" (by decide)).1,
    ((C9_no_year_token_skipped "readme.txt" (by decide)).2 ["d"] [["s", "readme.txt"]]
      ["s", "readme.txt"] (List.mem_singleton.mpr rfl) rfl (by decide)).1⟩

/-- C8: a candidate named like the organizer script itself is excluded from
processing: no plan entry and no skipped entry carries the script's name
(whatever the candidate listing, hence with or without the recursive flag),
and a script-named file present on disk keeps its contents across a whole
run. -/
theorem C8_script_file_excluded (dest : Path) (cands : List Path) (opts : OrganizeOptions)
    (orc : Oracle) (fs : FS) (p : Path) (c : Nat)
    (hname : pathName p = SCRIPT_NAME) (hfile : fs.lookupFile p = some c) :
    ((buildPlan dest cands).to_process.all
        (fun e => !(pathName e.1 == SCRIPT_NAME)) = true) ∧
    ((buildPlan dest cands).skipped.all
        (fun q => !(pathName q == SCRIPT_NAME)) = true) ∧
    (organize_files_by_year opts orc fs).1.lookupFile p = some c := by
  refine ⟨?_, ?_, ?_⟩
  · rw [List.all_eq_true]
    intro e he
    have h2 := (buildPlan_to_process_shape dest cands e he).2.1
    simpa using h2
  · rw [List.all_eq_true]
    intro q hq
    have h2 := (buildPlan_skipped_shape dest cands q hq).2.1
    simpa using h2
  · by_cases hsrc : pathExistsB fs opts.source = true
    · rw [organize_eq hsrc]
      dsimp only
      split
      · rw [lookup_congr (mkdirParents_files fs opts.dest)]
        exact hfile
      · have hl0 : (createYearDirs (fs.mkdirParents opts.dest)
            (buildPlan opts.dest (iter_candidate_files (fs.mkdirParents opts.dest)
              opts.source opts.recursive)).to_process).lookupFile p = some c := by
          rw [lookup_congr (createYearDirs_files _ _),
            lookup_congr (mkdirParents_files _ _)]
          exact hfile
        have hne : ∀ e ∈ (buildPlan opts.dest (iter_candidate_files
            (fs.mkdirParents opts.dest) opts.source opts.recursive)).to_process,
            e.1 ≠ p := by
          intro e he hEq
          have h2 := (buildPlan_to_process_shape _ _ e he).2.1
          rw [hEq, hname] at h2
          exact h2 rfl
        exact execPlan_lookup_preserve hne hl0
    · rw [organize_error (by simpa using hsrc)]
      exact hfile

/-- Witness for C8: a plan over a listing holding the script file plus a
Landsat file mentions the script name nowhere, and a live run leaves a
script-named file's contents in place. -/
theorem C8_script_file_excluded_witness :
    ((buildPlan ["d"] [["s", "a_20150414_b.tif"], ["s", "organize_by_year.py"]]).to_process.all
        (fun e => !(pathName e.1 == SCRIPT_NAME)) = true) ∧
    ((buildPlan ["d"] [["s", "a_20150414_b.tif"], ["s", "organize_by_year.py"]]).skipped.all
        (fun q => !(pathName q == SCRIPT_NAME)) = true) ∧
    (organize_files_by_year ⟨["s"], ["d"], "copy", false, false⟩ (fun _ _ => false)
        ⟨[(["s", "organize_by_year.py"], 7)], [["s"]]⟩).1.lookupFile
      ["s", "organize_by_year.py"] = some 7 :=
  C8_script_file_excluded ["d"] [["s", "a_20150414_b.tif"], ["s", "organize_by_year.py"]]
    ⟨["s"], ["d"], "copy", false, false⟩ (fun _ _ => false)
    ⟨[(["s", "organize_by_year.py"], 7)], [["s"]]⟩ ["s", "organize_by_year.py"] 7
    (by decide) (by decide)

/-- C10: in the printed summary, found = matched + skipped + the number of
candidates named like the script itself, which are counted as found but are
neither matched nor skipped; hence found ≠ matched + skipped whenever such a
candidate exists. -/
theorem C10_found_counts_script_candidates (opts : OrganizeOptions) (orc : Oracle)
    (fs : FS) (s : Summary) (h : (organize_files_by_year opts orc fs).2 = Except.ok s) :
    s.found = s.matched + s.skipped +
      (iter_candidate_files fs opts.source opts.recursive).countP
        (fun fp => pathName fp == SCRIPT_NAME) := by
  rw [← iter_candidate_congr opts.source opts.recursive (mkdirParents_files fs opts.dest)]
  by_cases hsrc : pathExistsB fs opts.source = true
  · rw [organize_eq hsrc] at h
    dsimp only at h
    split at h
    · simp only [Except.ok.injEq] at h
      subst h
      exact buildPlan_count opts.dest _
    · simp only [Except.ok.injEq] at h
      subst h
      exact buildPlan_count opts.dest _
  · rw [organize_error (by simpa using hsrc)] at h
    simp at h

/-- Witness for C10: a source with one Landsat file, one `readme.txt` and one
`organize_by_year.py` reports 3 found but only 1 matched and 1 skipped. -/
theorem C10_found_counts_script_candidates_witness :
    ((organize_files_by_year ⟨["s"], ["d"], "copy", false, false⟩ (fun _ _ => false)
        ⟨[(["s", "LC08_L2SP_141055_20150414_20200908_02_T1_SR_B4.TIF"], 0),
          (["s", "readme.txt"], 1), (["s", "organize_by_year.py"], 2)], [["s"]]⟩).2 =
      Except.ok ⟨3, 1, 1, 1, []⟩) ∧
    (3 : Nat) = 1 + 1 +
      (iter_candidate_files
        ⟨[(["s", "LC08_L2SP_141055_20150414_20200908_02_T1_SR_B4.TIF"], 0),
          (["s", "readme.txt"], 1), (["s", "organize_by_year.py"], 2)], [["s"]]⟩
        ["s"] false).countP (fun fp => pathName fp == SCRIPT_NAME) :=
  ⟨by decide,
    C10_found_counts_script_candidates ⟨["s"], ["d"], "copy", false, false⟩
      (fun _ _ => false)
      ⟨[(["s", "LC08_L2SP_141055_20150414_20200908_02_T1_SR_B4.TIF"], 0),
        (["s", "readme.txt"], 1), (["s", "organize_by_year.py"], 2)], [["s"]]⟩
      ⟨3, 1, 1, 1, []⟩ (by decide)⟩

/-- C5: the computed plan does not depend on the dry-run flag: two runs on the
same filesystem whose options differ only in `dry_run` report identical
found, matched and skipped counts (fatal outcomes also agree). -/
theorem C5_plan_independent_of_dry_run (opts : OrganizeOptions) (orc : Oracle) (fs : FS)
    (b1 b2 : Bool) :
    ((organize_files_by_year { opts with dry_run := b1 } orc fs).2.map
      (fun s => (s.found, s.matched, s.skipped))) =
    ((organize_files_by_year { opts with dry_run := b2 } orc fs).2.map
      (fun s => (s.found, s.matched, s.skipped))) := by
  by_cases hsrc : pathExistsB fs opts.source = true
  · rw [@organize_eq { opts with dry_run := b1 } orc fs hsrc,
      @organize_eq { opts with dry_run := b2 } orc fs hsrc]
    dsimp only
    split
    · rfl
    · rfl
  · have hsrc' : pathExistsB fs opts.source = false := by simpa using hsrc
    rw [@organize_error { opts with dry_run := b1 } orc fs hsrc',
      @organize_error { opts with dry_run := b2 } orc fs hsrc']

/-- C3: a plan entry whose destination exists at execution time is skipped
with no state change at all, and consequently a whole run never changes the
content of any pre-existing file: afterwards the file either still holds its
old content or is gone (moved away as a source); it is never overwritten. -/
theorem C3_collision_skipped_never_overwrites (opts : OrganizeOptions) (orc : Oracle)
    (fs : FS) :
    (∀ (st : ExecState) (e : Path × Path), pathExistsB st.fs e.2 = true →
        execEntry opts orc st e = st) ∧
    (∀ (p : Path) (c : Nat), fs.lookupFile p = some c →
        (organize_files_by_year opts orc fs).1.lookupFile p = some c ∨
        (organize_files_by_year opts orc fs).1.lookupFile p = none) := by
  constructor
  · intro st e h
    exact execEntry_skip h
  · intro p c hpc
    by_cases hsrc : pathExistsB fs opts.source = true
    · rw [organize_eq hsrc]
      dsimp only
      split
      · exact Or.inl (by rw [lookup_congr (mkdirParents_files fs opts.dest)]; exact hpc)
      · set cands := iter_candidate_files (fs.mkdirParents opts.dest)
          opts.source opts.recursive with hcands
        set plan := buildPlan opts.dest cands with hplan
        set fs2 := createYearDirs (fs.mkdirParents opts.dest) plan.to_process with hfs2
        have hshape : ∀ e ∈ plan.to_process, entryShape opts.dest e :=
          fun e he => (buildPlan_to_process_shape _ _ e he).2.2
        have h0 : fs2.lookupFile p = some c := by
          rw [hfs2, lookup_congr (createYearDirs_files _ _),
            lookup_congr (mkdirParents_files _ _)]
          exact hpc
        rcases @execPlan_content opts.dest opts orc ⟨fs2, 0, []⟩ plan.to_process
            hshape p c (Or.inl h0) with h | ⟨h, _⟩
        · exact Or.inl h
        · exact Or.inr h
    · rw [organize_error (by simpa using hsrc)]
      exact Or.inl hpc

/-- Witness for C3: a step whose destination already exists is the identity on
the execution state, and a concrete run preserves the content of a
pre-existing file. -/
theorem C3_collision_skipped_never_overwrites_witness :
    (execEntry ⟨["s"], ["d"], "copy", false, false⟩ (fun _ _ => false)
        ⟨⟨[(["d", "2015", "x_20150414_y.tif"], 9)], []⟩, 0, []⟩
        (["s", "x_20150414_y.tif"], ["d", "2015", "x_20150414_y.tif"]) =
      ⟨⟨[(["d", "2015", "x_20150414_y.tif"], 9)], []⟩, 0, []⟩) ∧
    ((organize_files_by_year ⟨["s"], ["d"], "copy", false, false⟩ (fun _ _ => false)
        ⟨[(["s", "readme.txt"], 5)], [["s"]]⟩).1.lookupFile ["s", "readme.txt"] = some 5 ∨
     (organize_files_by_year ⟨["s"], ["d"], "copy", false, false⟩ (fun _ _ => false)
        ⟨[(["s", "readme.txt"], 5)], [["s"]]⟩).1.lookupFile ["s", "readme.txt"] = none) :=
  ⟨(C3_collision_skipped_never_overwrites ⟨["s"], ["d"], "copy", false, false⟩
      (fun _ _ => false) ⟨[(["s", "readme.txt"], 5)], [["s"]]⟩).1
    ⟨⟨[(["d", "2015", "x_20150414_y.tif"], 9)], []⟩, 0, []⟩
    (["s", "x_20150414_y.tif"], ["d", "2015", "x_20150414_y.tif"]) (by decide),
   (C3_collision_skipped_never_overwrites ⟨["s"], ["d"], "copy", false, false⟩
      (fun _ _ => false) ⟨[(["s", "readme.txt"], 5)], [["s"]]⟩).2
    ["s", "readme.txt"] 5 (by decide)⟩

/-- C7: per-file copy or move failures never change the exit outcome - the run
returns a summary (exit zero) for every failure oracle whenever the source
exists - and a failing step only appends the filename to the error log,
leaving the filesystem and the written-counter untouched, after which the
loop continues with the remaining entries. -/
theorem C7_per_file_failure_logged_batch_continues (opts : OrganizeOptions) (orc : Oracle)
    (fs : FS) :
    (pathExistsB fs opts.source = true →
      ∃ s, (organize_files_by_year opts orc fs).2 = Except.ok s) ∧
    (∀ (st : ExecState) (e : Path × Path) (c : Nat),
      pathExistsB st.fs e.2 = false → opts.dry_run = false →
      st.fs.lookupFile e.1 = some c → orc e.1 e.2 = true →
      execEntry opts orc st e = { st with errors := st.errors ++ [pathName e.1] }) := by
  constructor
  · intro h
    exact organize_ok h
  · intro st e c h1 h2 h3 h4
    unfold execEntry
    rw [if_neg (by rw [h1]; exact Bool.false_ne_true), h2]
    simp only [Bool.false_eq_true, if_false, h3, h4, if_true]

/-- Witness for C7: with an oracle that fails every operation, a concrete run
still returns a summary, and a concrete failing step only logs the filename. -/
theorem C7_per_file_failure_logged_batch_continues_witness :
    (∃ s, (organize_files_by_year ⟨["s"], ["d"], "copy", false, false⟩ (fun _ _ => true)
        ⟨[(["s", "a_20150414_b.tif"], 0)], [["s"]]⟩).2 = Except.ok s) ∧
    (execEntry ⟨["s"], ["d"], "copy", false, false⟩ (fun _ _ => true)
        ⟨⟨[(["s", "a_20150414_b.tif"], 0)], [["s"]]⟩, 0, []⟩
        (["s", "a_20150414_b.tif"], ["d", "2015", "a_20150414_b.tif"]) =
      ⟨⟨[(["s", "a_20150414_b.tif"], 0)], [["s"]]⟩, 0, ["a_20150414_b.tif"]⟩) :=
  ⟨(C7_per_file_failure_logged_batch_continues ⟨["s"], ["d"], "copy", false, false⟩
      (fun _ _ => true) ⟨[(["s", "a_20150414_b.tif"], 0)], [["s"]]⟩).1 (by decide),
   (C7_per_file_failure_logged_batch_continues ⟨["s"], ["d"], "copy", false, false⟩
      (fun _ _ => true) ⟨[(["s", "a_20150414_b.tif"], 0)], [["s"]]⟩).2
    ⟨⟨[(["s", "a_20150414_b.tif"], 0)], [["s"]]⟩, 0, []⟩
    (["s", "a_20150414_b.tif"], ["d", "2015", "a_20150414_b.tif"]) 0
    (by decide) rfl (by decide) rfl⟩

/-- C2 counterexample: a dry run over a source holding one Landsat file does
mutate the filesystem - it creates the destination root and the year
directory, so the state after the run differs from the state before. -/
theorem C2_dry_run_creates_directories :
    (organize_files_by_year ⟨["s"], ["d"], "copy", false, true⟩ (fun _ _ => false)
        ⟨[(["s", "a_20150414_b.tif"], 0)], [["s"]]⟩).1 ≠
      (⟨[(["s", "a_20150414_b.tif"], 0)], [["s"]]⟩ : FS) ∧
    (["d"] : Path) ∈ (organize_files_by_year ⟨["s"], ["d"], "copy", false, true⟩
        (fun _ _ => false) ⟨[(["s", "a_20150414_b.tif"], 0)], [["s"]]⟩).1.dirs ∧
    (["d", "2015"] : Path) ∈ (organize_files_by_year ⟨["s"], ["d"], "copy", false, true⟩
        (fun _ _ => false) ⟨[(["s", "a_20150414_b.tif"], 0)], [["s"]]⟩).1.dirs ∧
    (["d"] : Path) ∉ (⟨[(["s", "a_20150414_b.tif"], 0)], [["s"]]⟩ : FS).dirs := by
  refine ⟨by decide, by decide, by decide, by decide⟩

/-- C2 amended: a dry run creates no file and removes none - the file list is
unchanged - but it may still create directories, namely the destination root
with its ancestors and the year subdirectories of the destination; nothing
else is ever created. -/
theorem C2_dry_run_no_file_writes (opts : OrganizeOptions) (orc : Oracle) (fs : FS)
    (hdry : opts.dry_run = true) :
    (organize_files_by_year opts orc fs).1.files = fs.files ∧
    ∀ d ∈ (organize_files_by_year opts orc fs).1.dirs,
      d ∈ fs.dirs ∨ d ∈ prefixesOf opts.dest ∨ ∃ y, d = opts.dest ++ [y] := by
  by_cases hsrc : pathExistsB fs opts.source = true
  · rw [organize_eq hsrc]
    dsimp only
    split
    · refine ⟨mkdirParents_files fs opts.dest, ?_⟩
      intro d hd
      rcases mkdirParents_dirs_origin fs opts.dest hd with h | h
      · exact Or.inl h
      · exact Or.inr (Or.inl h)
    · set cands := iter_candidate_files (fs.mkdirParents opts.dest)
        opts.source opts.recursive with hcands
      set plan := buildPlan opts.dest cands with hplan
      set fs2 := createYearDirs (fs.mkdirParents opts.dest) plan.to_process with hfs2
      have hshape : ∀ e ∈ plan.to_process, entryShape opts.dest e :=
        fun e he => (buildPlan_to_process_shape _ _ e he).2.2
      constructor
      · rw [@execPlan_dry_fs opts orc ⟨fs2, 0, []⟩ plan.to_process hdry]
        show fs2.files = fs.files
        rw [hfs2, createYearDirs_files, mkdirParents_files]
      · intro d hd
        rw [execPlan_dirs] at hd
        have hd2 : d ∈ fs2.dirs := hd
        rw [hfs2] at hd2
        rcases createYearDirs_dirs_origin hshape hd2 with h | h | h
        · rcases mkdirParents_dirs_origin fs opts.dest h with h' | h'
          · exact Or.inl h'
          · exact Or.inr (Or.inl h')
        · exact Or.inr (Or.inl h)
        · exact Or.inr (Or.inr h)
  · rw [organize_error (by simpa using hsrc)]
    exact ⟨rfl, fun d hd => Or.inl hd⟩

/-- Witness for C2 amended: a concrete dry run leaves the file list unchanged
even though its plan is non-empty. -/
theorem C2_dry_run_no_file_writes_witness :
    (organize_files_by_year ⟨["s"], ["d"], "copy", false, true⟩ (fun _ _ => false)
        ⟨[(["s", "a_20150414_b.tif"], 0)], [["s"]]⟩).1.files =
      [(["s", "a_20150414_b.tif"], 0)] :=
  (C2_dry_run_no_file_writes ⟨["s"], ["d"], "copy", false, true⟩ (fun _ _ => false)
    ⟨[(["s", "a_20150414_b.tif"], 0)], [["s"]]⟩ rfl).1

/-! ### Idempotence infrastructure -/

theorem organize_eq' {opts : OrganizeOptions} {orc : Oracle} {fs : FS}
    (h : pathExistsB fs opts.source = true) :
    organize_files_by_year opts orc fs =
      (if (runPlan opts fs).to_process.isEmpty then
        (fs.mkdirParents opts.dest, Except.ok
          { found := (runCands opts fs).length, matched := (runPlan opts fs).to_process.length,
            skipped := (runPlan opts fs).skipped.length, moved := 0, errors := [] })
      else
        ((execPlan opts orc (runInit opts fs) (runPlan opts fs).to_process).fs,
         Except.ok
          { found := (runCands opts fs).length, matched := (runPlan opts fs).to_process.length,
            skipped := (runPlan opts fs).skipped.length,
            moved := (execPlan opts orc (runInit opts fs) (runPlan opts fs).to_process).moved,
            errors := (execPlan opts orc (runInit opts fs)
              (runPlan opts fs).to_process).errors })) := by
  unfold organize_files_by_year runInit runFS2 runPlan runCands
  rw [if_pos h]

theorem runPlan_shape (opts : OrganizeOptions) (fs : FS) :
    ∀ e ∈ (runPlan opts fs).to_process, entryShape opts.dest e :=
  fun e he => (buildPlan_to_process_shape _ _ e he).2.2

theorem runCands_eq (opts : OrganizeOptions) (fs : FS) :
    runCands opts fs = iter_candidate_files fs opts.source opts.recursive :=
  iter_candidate_congr _ _ (mkdirParents_files fs opts.dest)

theorem runFS2_files (opts : OrganizeOptions) (fs : FS) : (runFS2 opts fs).files = fs.files := by
  unfold runFS2
  rw [createYearDirs_files, mkdirParents_files]

theorem lookup_isSome_of_mem_keys {fs : FS} {p : Path} (h : p ∈ fs.files.map Prod.fst) :
    (fs.lookupFile p).isSome = true := by
  obtain ⟨pc, hm, he⟩ := List.mem_map.mp h
  unfold FS.lookupFile
  cases hfind : fs.files.find? (fun pc => pc.1 == p) with
  | some v => rfl
  | none =>
    exact absurd (show ((fun pc : Path × Nat => pc.1 == p) pc) = true by simp [he])
      (List.find?_eq_none.mp hfind pc hm)

theorem pathExists_of_mem_keys {fs : FS} {p : Path} (h : p ∈ fs.files.map Prod.fst) :
    pathExistsB fs p = true := by
  obtain ⟨pc, hm, he⟩ := List.mem_map.mp h
  unfold pathExistsB
  rw [Bool.or_eq_true, List.any_eq_true]
  exact Or.inr ⟨pc, hm, by simp [he]⟩

theorem organize_all_dest_exist_no_writes {opts : OrganizeOptions} {orc : Oracle} {fs : FS}
    (hsrc : pathExistsB fs opts.source = true)
    (H : ∀ fp ∈ iter_candidate_files fs opts.source opts.recursive,
      ∀ y, extract_year_from_filename (pathName fp) = some y → y ≠ "" →
        pathExistsB fs (opts.dest ++ [y, pathName fp]) = true) :
    (organize_files_by_year opts orc fs).1.files = fs.files ∧
    ∃ s, (organize_files_by_year opts orc fs).2 = Except.ok s ∧ s.moved = 0 := by
  rw [organize_eq' hsrc]
  split
  · exact ⟨mkdirParents_files fs opts.dest, _, rfl, rfl⟩
  · have hall : ∀ e ∈ (runPlan opts fs).to_process,
        pathExistsB (runInit opts fs).fs e.2 = true := by
      intro e he
      obtain ⟨hmem, hscript, y, hy, hney, hdst⟩ := buildPlan_to_process_shape
        opts.dest (runCands opts fs) e he
      rw [runCands_eq] at hmem
      have hx := H e.1 hmem y hy hney
      rw [hdst]
      show pathExistsB (runFS2 opts fs) _ = true
      unfold runFS2
      exact createYearDirs_pathExists _ _ (mkdirParents_pathExists _ _ hx)
    rw [execPlan_all_skip hall]
    exact ⟨runFS2_files opts fs, _, rfl, rfl⟩

theorem organize_post_dest_exists {opts : OrganizeOptions} {orc : Oracle} {fs : FS}
    (hwf : fs.wf) (hdry : opts.dry_run = false) (hsrc : pathExistsB fs opts.source = true)
    (hnofail : ∀ s d, orc s d = false) :
    ∀ fp ∈ iter_candidate_files fs opts.source opts.recursive,
      pathName fp ≠ SCRIPT_NAME →
      ∀ y, extract_year_from_filename (pathName fp) = some y → y ≠ "" →
      pathExistsB (organize_files_by_year opts orc fs).1
        (opts.dest ++ [y, pathName fp]) = true := by
  intro fp hmem hscript y hy hney
  have hmem1 : fp ∈ runCands opts fs := by
    rw [runCands_eq]
    exact hmem
  have hentry : (fp, opts.dest ++ [y, pathName fp]) ∈ (runPlan opts fs).to_process :=
    buildPlan_to_process_complete opts.dest _ hmem1 hscript hy hney
  rw [organize_eq' hsrc]
  split
  · rename_i hempty
    rw [List.isEmpty_iff] at hempty
    rw [hempty] at hentry
    exact absurd hentry (List.not_mem_nil _)
  · have hcnodup : (runCands opts fs).Nodup := by
      unfold runCands
      exact iter_candidate_nodup _ _
        (by unfold FS.wf; rw [mkdirParents_files]; exact hwf)
    have hnodup : ((runPlan opts fs).to_process.map Prod.fst).Nodup :=
      (buildPlan_srcs_sublist opts.dest (runCands opts fs)).nodup hcnodup
    have hava : ∀ e ∈ (runPlan opts fs).to_process,
        ((runInit opts fs).fs.lookupFile e.1).isSome = true ∨
          pathExistsB (runInit opts fs).fs e.2 = true := by
      intro e he
      left
      have hm := (buildPlan_to_process_shape opts.dest (runCands opts fs) e he).1
      apply lookup_isSome_of_mem_keys
      show e.1 ∈ (runFS2 opts fs).files.map Prod.fst
      rw [runFS2_files]
      have hmk := (iter_candidate_mem (show e.1 ∈ iter_candidate_files
        (fs.mkdirParents opts.dest) opts.source opts.recursive from hm)).1
      rw [mkdirParents_files] at hmk
      exact hmk
    have hall := execPlan_dst_all_exist hdry hnofail (runPlan_shape opts fs) hnodup hava
    exact hall _ hentry

theorem organize_files_origin {opts : OrganizeOptions} {orc : Oracle} {fs : FS}
    {pc : Path × Nat} (h : pc ∈ (organize_files_by_year opts orc fs).1.files) :
    pc ∈ fs.files ∨ isCanonical opts.dest pc.1 := by
  by_cases hsrc : pathExistsB fs opts.source = true
  · rw [organize_eq' hsrc] at h
    split at h
    · dsimp only at h
      rw [mkdirParents_files] at h
      exact Or.inl h
    · dsimp only at h
      rcases execPlan_files_origin (runPlan_shape opts fs) h with h' | h'
      · refine Or.inl ?_
        have hfseq : (runInit opts fs).fs.files = fs.files := runFS2_files opts fs
        rw [hfseq] at h'
        exact h'
      · exact Or.inr h'
  · rw [organize_error (by simpa using hsrc)] at h
    exact Or.inl h

theorem organize_source_persists {opts : OrganizeOptions} {orc : Oracle} {fs : FS}
    (h : pathExistsB fs opts.source = true) :
    pathExistsB (organize_files_by_year opts orc fs).1 opts.source = true := by
  rw [organize_eq' h]
  split
  · dsimp only
    exact mkdirParents_pathExists _ _ h
  · dsimp only
    apply execPlan_pathExists_preserve
    · intro e he hEq
      have hm := (buildPlan_to_process_shape opts.dest (runCands opts fs) e he).1
      have hu := (iter_candidate_mem (show e.1 ∈ iter_candidate_files
        (fs.mkdirParents opts.dest) opts.source opts.recursive from hm)).2
      exact isUnderB_ne_source hu hEq
    · show pathExistsB (runFS2 opts fs) opts.source = true
      unfold runFS2
      exact createYearDirs_pathExists _ _ (mkdirParents_pathExists _ _ h)

/-- C6: after a live run in which no per-file operation failed, running the
organizer again with the same options performs no writes: the second run keeps
the file list unchanged and reports zero files written, every plan entry being
skipped because its destination already exists. -/
theorem C6_second_live_run_performs_no_writes (opts : OrganizeOptions)
    (orc1 orc2 : Oracle) (fs : FS) (hwf : fs.wf) (hdry : opts.dry_run = false)
    (hsrc : pathExistsB fs opts.source = true) (hnofail : ∀ s d, orc1 s d = false) :
    (∃ s1, (organize_files_by_year opts orc1 fs).2 = Except.ok s1) ∧
    (organize_files_by_year opts orc2 (organize_files_by_year opts orc1 fs).1).1.files =
      (organize_files_by_year opts orc1 fs).1.files ∧
    ∃ s2, (organize_files_by_year opts orc2
        (organize_files_by_year opts orc1 fs).1).2 = Except.ok s2 ∧ s2.moved = 0 := by
  refine ⟨organize_ok hsrc, ?_⟩
  have hsrc2 : pathExistsB (organize_files_by_year opts orc1 fs).1 opts.source = true :=
    organize_source_persists hsrc
  apply organize_all_dest_exist_no_writes hsrc2
  intro fp hfp y hy hney
  by_cases hscript : pathName fp = SCRIPT_NAME
  · rw [hscript] at hy
    rw [show extract_year_from_filename SCRIPT_NAME = none by decide] at hy
    cases hy
  · have hkey : fp ∈ (organize_files_by_year opts orc1 fs).1.files.map Prod.fst :=
      (iter_candidate_mem hfp).1
    obtain ⟨pc, hpcmem, hpcfst⟩ := List.mem_map.mp hkey
    rcases organize_files_origin hpcmem with horig | hcan
    · have hcond := (List.mem_filter.mp hfp).2
      have hmem0 : fp ∈ iter_candidate_files fs opts.source opts.recursive :=
        List.mem_filter.mpr ⟨List.mem_map.mpr ⟨pc, horig, hpcfst⟩, hcond⟩
      exact organize_post_dest_exists hwf hdry hsrc hnofail fp hmem0 hscript y hy hney
    · rw [hpcfst] at hcan
      obtain ⟨y', hy', hney', hp⟩ := hcan
      rw [hy] at hy'
      injection hy' with hyy
      rw [← hyy] at hp
      rw [← hp]
      exact pathExists_of_mem_keys hkey

/-- Witness for C6: a concrete copy-mode run followed by a second run with the
same options writes nothing the second time. -/
theorem C6_second_live_run_performs_no_writes_witness :
    (∃ s1, (organize_files_by_year ⟨["s"], ["d"], "copy", false, false⟩ (fun _ _ => false)
        ⟨[(["s", "a_20150414_b.tif"], 0)], [["s"]]⟩).2 = Except.ok s1) ∧
    (organize_files_by_year ⟨["s"], ["d"], "copy", false, false⟩ (fun _ _ => false)
        (organize_files_by_year ⟨["s"], ["d"], "copy", false, false⟩ (fun _ _ => false)
          ⟨[(["s", "a_20150414_b.tif"], 0)], [["s"]]⟩).1).1.files =
      (organize_files_by_year ⟨["s"], ["d"], "copy", false, false⟩ (fun _ _ => false)
        ⟨[(["s", "a_20150414_b.tif"], 0)], [["s"]]⟩).1.files ∧
    ∃ s2, (organize_files_by_year ⟨["s"], ["d"], "copy", false, false⟩ (fun _ _ => false)
        (organize_files_by_year ⟨["s"], ["d"], "copy", false, false⟩ (fun _ _ => false)
          ⟨[(["s", "a_20150414_b.tif"], 0)], [["s"]]⟩).1).2 = Except.ok s2 ∧
      s2.moved = 0 :=
  C6_second_live_run_performs_no_writes ⟨["s"], ["d"], "copy", false, false⟩
    (fun _ _ => false) (fun _ _ => false) ⟨[(["s", "a_20150414_b.tif"], 0)], [["s"]]⟩
    (by unfold FS.wf; decide) rfl (by decide) (fun _ _ => rfl)

end OrganizeByYear
